import Mathlib

/-!
# Errantibus: value stringification and failure-report rendering

A shallow embedding of `src/src/errantibus.cpp` and
`src/includes/mode/errantibusDebug.hpp`.

* A `std::string` / `std::string_view` is a `Text`, a list of characters; every
  character stands for one byte of the C++ string.
* An output stream (`std::ostringstream`, `std::cerr`) is the `Text` written to it
  so far; a function that writes to a stream takes the old contents and returns
  the new contents.
* Indexing a vector out of range is undefined behaviour in C++; functions that
  index return `Option` and yield `none` there.
-/

namespace Errantibus

/-- A C++ string or string view: the sequence of its bytes. -/
abbrev Text := List Char

/-! ## Expression splitter (`errantibus.cpp`, lines 151-184) -/

/-- The predicate `std::isspace` in the default "C" locale: space, form feed, line feed,
carriage return, horizontal tab and vertical tab. -/
def isspace (c : Char) : Bool :=
  c = ' ' || c = '\x0c' || c = '\n' || c = '\r' || c = '\t' || c = '\x0b'

/-- The function `trim`: the first loop removes whitespace from the front, the second
from the back. -/
def trim (sv : Text) : Text :=
  (sv.dropWhile isspace).rdropWhile isspace

/-- The call `input.substr(pos, n)` of a string view. -/
def substr (input : Text) (pos n : Nat) : Text :=
  (input.drop pos).take n

/-- The `for` loop of `splitExpressions`. The second argument is the part of `input`
from index `i` on, so its head is `input[i]`; the loop ends when it is empty
(`i = input.size()`). Returns the final `result` and `start`. The `std::size_t` counters
cannot overflow: they are bounded by the length of `input`. -/
def splitLoop (input : Text) :
    Text → Nat → Nat → Nat → List Text → List Text × Nat
  | [], _, start, _, result => (result, start)
  | c :: rest, i, start, parenDepth, result =>
    if c = '(' then
      splitLoop input rest (i + 1) start (parenDepth + 1) result
    else if c = ')' ∧ parenDepth > 0 then
      splitLoop input rest (i + 1) start (parenDepth - 1) result
    else if c = ',' ∧ parenDepth = 0 then
      splitLoop input rest (i + 1) (i + 1) parenDepth
        (result ++ [trim (substr input start (i - start))])
    else
      splitLoop input rest (i + 1) start parenDepth result

/-- The function `splitExpressions`. -/
def splitExpressions (input : Text) : List Text :=
  let r := splitLoop input input 0 0 0 []
  if r.2 < input.length then
    r.1 ++ [trim (input.drop r.2)]
  else
    r.1

/-! ### The splitter as a scan that carries the current segment -/

/-- The scan of `splitExpressions` with the pending segment `cur` (the text from
`start` up to the current position) carried along instead of the two indices. -/
def splitAcc : Text → Text → Nat → List Text → List Text
  | [], cur, _, result => if cur = [] then result else result ++ [trim cur]
  | c :: rest, cur, parenDepth, result =>
    if c = '(' then
      splitAcc rest (cur ++ [c]) (parenDepth + 1) result
    else if c = ')' ∧ parenDepth > 0 then
      splitAcc rest (cur ++ [c]) (parenDepth - 1) result
    else if c = ',' ∧ parenDepth = 0 then
      splitAcc rest [] parenDepth (result ++ [trim cur])
    else
      splitAcc rest (cur ++ [c]) parenDepth result

/-- The last step of `splitExpressions`, applied to the loop's final `result` and `start`. -/
def splitFinish (input : Text) (r : List Text × Nat) : List Text :=
  if r.2 < input.length then r.1 ++ [trim (input.drop r.2)] else r.1

/-! ## Value stringifier (`errantibus.cpp`, lines 28-64; `errantibusDebug.hpp`, lines 27-63) -/

/-- Decimal text of an unsigned number, as `operator<<` writes it. -/
def decimalNat (n : Nat) : Text := Nat.toDigits 10 n

/-- Decimal text of a signed number, as `operator<<` writes it. -/
def decimal : Int → Text
  | Int.ofNat n => decimalNat n
  | Int.negSucc n => '-' :: decimalNat (n + 1)

/-- The table `specialChars` of the 32 control-character mnemonics. -/
def specialChars : Array Text :=
  #["\\0".toList, "SOH".toList, "STX".toList, "ETX".toList, "EOT".toList, "ENQ".toList,
    "ACK".toList, "\\a".toList, "\\b".toList, "\\t".toList, "\\n".toList, "\\v".toList,
    "\\f".toList, "\\r".toList, "SO".toList, "SI".toList, "DLE".toList, "DC1".toList,
    "DC2".toList, "DC3".toList, "DC4".toList, "NAK".toList, "SYN".toList, "ETB".toList,
    "CAN".toList, "EM".toList, "SUB".toList, "ESC".toList, "FS".toList, "GS".toList,
    "RS".toList, "US".toList]

/-- The constant `del`. -/
def del : Nat := 0x7f

/-- The function `writeChar`; `out` is the stream's contents before the call. -/
def writeChar (out : Text) (u : Nat) (i : Int) (isSigned : Bool) : Text :=
  let out :=
    if h : u < specialChars.size then
      out ++ "`".toList ++ specialChars[u] ++ "`".toList
    else if u = del then
      out ++ "`DEL`".toList
    else if u < del then
      out ++ "`".toList ++ [Char.ofNat u] ++ "`".toList
    else
      out
  if isSigned then
    out ++ " numeric: ".toList ++ decimal i ++ " (signed)".toList
  else
    out ++ " numeric: ".toList ++ decimalNat u ++ " (unsigned)".toList

/-- The conversion `static_cast<unsigned char>` of a character value. -/
def toUnsignedChar (obj : Int) : Nat := (obj % 256).toNat

/-- The overload `stringify(out, char obj)`. Whether `char` is signed
(`std::numeric_limits<char>::is_signed`) is fixed by the platform and is the parameter
`charIsSigned`; `obj` is the value of the character, in `-128..127` when `char` is signed
and in `0..255` otherwise. -/
def stringifyChar (charIsSigned : Bool) (out : Text) (obj : Int) : Text :=
  writeChar out (toUnsignedChar obj) obj charIsSigned

/-- The overload `stringify(out, unsigned char obj)`, `obj` in `0..255`. -/
def stringifyUnsignedChar (out : Text) (obj : Nat) : Text :=
  writeChar out obj (Int.ofNat obj) false

/-- The overload `stringify(out, signed char obj)`, `obj` in `-128..127`. -/
def stringifySignedChar (out : Text) (obj : Int) : Text :=
  writeChar out (toUnsignedChar obj) obj true

/-- The `StreamPrintable` overload of `stringify`; `write obj` is the text `out << obj`
appends for the type at hand. -/
def stringifyStreamPrintable {α : Type} (write : α → Text) (out : Text) (obj : α) : Text :=
  out ++ "`".toList ++ write obj ++ "`".toList

/-- The body of the `for` loop of the `Iterable` overload: one element `x`, with the
state `(contents, first)`. `stringifyElem` is the overload of `stringify` chosen for the
element type. -/
def iterableStep {α : Type} (stringifyElem : Text → α → Text) (st : Text × Bool) (x : α) :
    Text × Bool :=
  if st.2 then
    (stringifyElem st.1 x, false)
  else
    (stringifyElem (st.1 ++ ", ".toList) x, false)

/-- The `Iterable` overload of `stringify`; the iterable is the list of its elements in
traversal order. -/
def stringifyIterable {α : Type} (stringifyElem : Text → α → Text) (out : Text)
    (obj : List α) : Text :=
  let contents := (obj.foldl (iterableStep stringifyElem) ([], true)).1
  out ++ "\x7b".toList ++ contents ++ "\x7d".toList

/-- The fallback overload of `stringify`, chosen for a type that is neither character-like,
boolean, stream-printable nor iterable; it does not look at `obj`. -/
def stringifyFallback {α : Type} (out : Text) (_obj : α) : Text :=
  out ++ "not printable\n".toList

/-- The function `toString`; `stringify` is the overload chosen for the type of `obj`. -/
def toString {α : Type} (stringify : Text → α → Text) (obj : α) : Text :=
  stringify [] obj

/-- The parameter types of the non-template overloads of `stringify` that
`errantibusDebug.hpp` declares (lines 29-32). For an argument of one of these types the
non-template overload is an exact match and is the one chosen. -/
def stringifyDeclared : List String :=
  ["char", "unsigned char", "signed char", "bool"]

/-- The parameter types of the non-template overloads of `stringify` that `errantibus.cpp`
defines (lines 53-64); no other file defines one. -/
def stringifyDefined : List String :=
  ["char", "unsigned char", "signed char"]

/-- The text `out << obj` appends for a `bool` under the default stream flags, which the
repository never changes (`boolalpha` is not set): the digit 1 or 0. -/
def writeBool (obj : Bool) : Text :=
  if obj then "1".toList else "0".toList

/-- The numeric suffix of section 4.1, rule 1 of the spec: the value as its source type
holds it, `i` for a signed type and `u` for an unsigned one, with the signedness tag. -/
def numericSuffix (u : Nat) (i : Int) (isSigned : Bool) : Text :=
  if isSigned then
    " numeric: ".toList ++ decimal i ++ " (signed)".toList
  else
    " numeric: ".toList ++ decimalNat u ++ " (unsigned)".toList

/-- The backticked glyph the spec gives the codes `0..127`: the mnemonic of the table for
`0..31`, `DEL` for `127`, the character itself for `32..126`. The spec gives none to a
code above `127`. -/
def specGlyph (u : Nat) : Option Text :=
  if h : u < 32 then
    some ("`".toList ++ specialChars.get ⟨u, h⟩ ++ "`".toList)
  else if u = 127 then
    some "`DEL`".toList
  else if u ≤ 126 then
    some ("`".toList ++ [Char.ofNat u] ++ "`".toList)
  else
    none

/-- The values a plain `char` can hold: `-128..127` when `char` is signed, `0..255`
otherwise. -/
def charRange (charIsSigned : Bool) (obj : Int) : Prop :=
  if charIsSigned then -128 ≤ obj ∧ obj ≤ 127 else 0 ≤ obj ∧ obj ≤ 255

/-! ## Report renderer and source-context printer (`errantibus.cpp`, lines 66-123, 195-201) -/

/-- The escape sequence `blue`. -/
def blue : Text := "\x1b[34m".toList

/-- The escape sequence `reset`. -/
def reset : Text := "\x1b[0m".toList

/-- The state of the `std::ifstream` of `loadSourceContext`: the bytes not yet read and
the two state bits the function can meet (`badbit`, a device error, is not modelled). -/
structure IfStream where
  rest : Text
  eofbit : Bool
  failbit : Bool
deriving DecidableEq, Repr

/-- The test `file.good()`. -/
def IfStream.good (file : IfStream) : Bool :=
  !file.eofbit && !file.failbit

/-- The extraction of `file.ignore(max, '\n')` on a good stream: bytes are discarded up to
and including the first newline; meeting the end of the file sets `eofbit`. -/
def ignoreScan : Text → IfStream
  | [] => { rest := [], eofbit := true, failbit := false }
  | c :: cs => if c = '\n' then { rest := cs, eofbit := false, failbit := false }
               else ignoreScan cs

/-- The call `file.ignore(std::numeric_limits<std::streamsize>::max(), '\n')`. On a stream
that is not good the sentry sets `failbit` and nothing is read. -/
def ignoreLine (file : IfStream) : IfStream :=
  if file.good then ignoreScan file.rest else { file with failbit := true }

/-- The call `std::getline(file, line)` with `line` empty before it: returns the stream
after the call and `line`. On a stream that is not good the sentry sets `failbit`; otherwise
bytes are moved to `line` up to the first newline, which is removed from the stream and not
stored; the end of the file sets `eofbit`, and `failbit` too when no byte was extracted. -/
def getline (file : IfStream) : IfStream × Text :=
  if file.good then
    let line := file.rest.takeWhile (fun c => c != '\n')
    match file.rest.dropWhile (fun c => c != '\n') with
    | [] => ({ rest := [], eofbit := true, failbit := line.isEmpty }, line)
    | _ :: cs => ({ rest := cs, eofbit := false, failbit := false }, line)
  else
    ({ file with failbit := true }, [])

/-- The first loop of `loadSourceContext`, `for (l = 1; l < start; ++l)`, by the number of
iterations left. -/
def skipLoop : Nat → IfStream → IfStream
  | 0, file => file
  | n + 1, file => skipLoop n (ignoreLine file)

/-- The second loop of `loadSourceContext`, `for (l = start; l < end; ++l)`, by the number
of iterations left; `!file` is the test of `failbit`. -/
def readLoop : Nat → IfStream → List Text → List Text
  | 0, _, lines => lines
  | n + 1, file, lines =>
    if file.failbit then
      lines
    else
      let r := getline file
      readLoop n r.1 (lines ++ [r.2])

/-- The function `loadSourceContext`. The file system is the argument `file`: the contents
of the file named `filename`, or `none` when it cannot be opened. The `std::int64_t`
arithmetic is exact: line numbers stay far below `2^63`. -/
def loadSourceContext (file : Option Text) (lineNo before after : Int) : List Text :=
  match file with
  | none => []
  | some contents =>
    let start := max 1 (lineNo - before)
    let end_ := lineNo + after
    let stream := skipLoop (start - 1).toNat
      { rest := contents, eofbit := false, failbit := false }
    readLoop (end_ - start).toNat stream []

/-- The body of the loop of `printSourceContext` for the index `i` and `context[i]`. The
label is written by `toString(l)` through the `StreamPrintable` overload. -/
def printContextLine (loc before : Int) (cerr : Text) (i : Nat) (line : Text) : Text :=
  let l : Int := loc - before + i
  let padding : Int := 10 - ((toString (stringifyStreamPrintable decimal) l).length : Int)
  let cerr := cerr ++ List.replicate padding.toNat ' '
  let cerr :=
    if (i : Int) = before then
      cerr ++ blue ++ "> ".toList ++ decimal l ++ " |\t".toList
    else
      cerr ++ "  ".toList ++ decimal l ++ " |\t".toList
  let cerr := cerr ++ line
  let cerr := if (i : Int) = before then cerr ++ reset else cerr
  cerr ++ "\n".toList

/-- The loop of `printSourceContext` over the lines of `context` from index `i` on. -/
def printContextLoop (loc before : Int) : List Text → Nat → Text → Text
  | [], _, cerr => cerr
  | line :: rest, i, cerr =>
    printContextLoop loc before rest (i + 1) (printContextLine loc before cerr i line)

/-- The function `printSourceContext`; `cerr` is what was written to the error stream
before the call. -/
def printSourceContext (cerr : Text) (file : Option Text) (lineNo : Nat) : Text :=
  let before : Int := 2
  let after : Int := 2
  let loc : Int := lineNo
  let context := loadSourceContext file loc before after
  printContextLoop loc before context 0 cerr

/-- The loop of `printValues` over the values from index `i` on; `exprs[i]` out of range
is undefined behaviour, here `none`. -/
def printValuesLoop (exprs : List Text) : List Text → Nat → Text → Option Text
  | [], _, cerr => some cerr
  | value :: rest, i, cerr =>
    match exprs[i]? with
    | none => none
    | some expr =>
      printValuesLoop exprs rest (i + 1)
        (cerr ++ "\t(".toList ++ decimalNat i ++ ") ".toList ++ expr ++ " = ".toList
          ++ value ++ "\n".toList)

/-- The function `printValues`; `cerr` is what was written to the error stream before
the call. -/
def printValues (cerr : Text) (expressions : Text) (values : List Text) : Option Text :=
  printValuesLoop (splitExpressions expressions) values 0 cerr

/-- The contents of a file whose lines are `ls`, each ended by a newline. -/
def fileOfLines (ls : List Text) : Text :=
  (ls.map (fun l => l ++ "\n".toList)).flatten

/-- A file of ten lines, each one letter and ended by a newline. -/
def tenLines : Text := "a\nb\nc\nd\ne\nf\ng\nh\ni\nj\n".toList

/-! ## Failure reports (`errantibus.cpp`, lines 66-72, 125-149, 186-275) -/

/-- The escape sequence `yellow`. -/
def yellow : Text := "\x1b[33m".toList

/-- The escape sequence `red`. -/
def red : Text := "\x1b[31m".toList

/-- The escape sequence `bold`. -/
def bold : Text := "\x1b[1m".toList

/-- How a call ends: it returns to its caller, or the process is terminated
(`std::terminate`); `cerr` is what the error stream holds at that point. -/
inductive Outcome where
  | returned (cerr : Text)
  | terminated (cerr : Text)
deriving DecidableEq, Repr

/-- One frame of a captured `boost::stacktrace::stacktrace`, by what `printStackTrace`
reads of it: `empty` is the test `!frame`, `address` is the text `operator<<` writes for
`frame.address()`. -/
structure Frame where
  empty : Bool
  name : Text
  source_file : Text
  source_line : Nat
  address : Text
deriving DecidableEq, Repr

/-- The values `i` takes in a loop `for (int i = first; i >= skipTop; --i)`, in the order
of the iterations; the first argument bounds the number of iterations. -/
def downLoop : Nat → Int → Int → List Int
  | 0, _, _ => []
  | fuel + 1, i, skipTop =>
    if i ≥ skipTop then i :: downLoop fuel (i - 1) skipTop else []

/-- The indices `i` at which the loop of `printStackTrace` runs its body, for a trace of
`size` frames. The loop runs fewer than `size` times. -/
def frameIndices (size : Int) : List Int :=
  let skipBottom : Int := 3
  let skipTop : Int := 2
  downLoop size.toNat (size - skipBottom - 1) skipTop

/-- The body of the loop of `printStackTrace` at index `i`. The access `trace[i]` out of
range is undefined behaviour, here `none`. `fs` is the file system: the contents of the
file of a given name, or `none` when it cannot be opened. -/
def printFrame (fs : Text → Option Text) (trace : List Frame) (cerr : Text) (i : Int) :
    Option Text :=
  if i < 0 then
    none
  else
    match (trace)[i.toNat]? with
    | none => none
    | some frame =>
      if frame.empty then
        some cerr
      else
        let cerr := cerr ++ yellow ++ " #".toList ++ decimal i ++ " ".toList ++ frame.name
          ++ reset ++ "\n".toList
        let cerr := cerr ++ "\t".toList ++ "at ".toList ++ frame.source_file ++ ":".toList
          ++ decimalNat frame.source_line ++ " at ".toList ++ frame.address ++ "\n".toList
        some (printSourceContext cerr (fs frame.source_file) frame.source_line)

/-- The function `printStackTrace`; `trace` is the stack that
`boost::stacktrace::stacktrace()` captures. -/
def printStackTrace (fs : Text → Option Text) (trace : List Frame) (cerr : Text) :
    Option Text :=
  let cerr := cerr ++ "\n".toList
  let cerr := cerr ++ yellow ++ bold ++ "Stacktrace (most recent call last):".toList ++ reset
    ++ "\n".toList
  let size : Int := trace.length
  match (frameIndices size).foldlM (printFrame fs trace) cerr with
  | none => none
  | some cerr => some (cerr ++ "\n".toList)

/-- The function `terminate`: a newline, then `std::terminate()`. -/
def terminate (cerr : Text) : Outcome :=
  Outcome.terminated (cerr ++ "\n".toList)

/-- The function `printHeader`. -/
def printHeader (cerr : Text) (file : Text) (line : Nat) (msg : Text) : Text :=
  let cerr := cerr ++ red ++ bold ++ file ++ ":".toList ++ decimalNat line
  let cerr := if ¬ msg.isEmpty then cerr ++ " - ".toList ++ msg else cerr
  cerr ++ reset ++ "\n".toList

/-- The function `printArguments`. -/
def printArguments (cerr : Text) (msg firstExpr firstValue secondExpr secondValue : Text) :
    Text :=
  let cerr := cerr ++ "   ".toList ++ msg ++ "\n".toList
  let cerr := cerr ++ "   Left value:  ".toList ++ firstExpr ++ "\n".toList
  let cerr := cerr ++ "           is:  ".toList ++ firstValue ++ "\n".toList
  let cerr := cerr ++ "   Right value: ".toList ++ secondExpr ++ "\n".toList
  cerr ++ "            is: ".toList ++ secondValue ++ "\n".toList

/-- The function `printDebug`. -/
def printDebug (cerr : Text) (file : Text) (line : Nat) (expressions : Text)
    (values : List Text) : Option Outcome :=
  let cerr := printHeader cerr file line []
  match printValues cerr expressions values with
  | none => none
  | some cerr => some (Outcome.returned cerr)

/-- The function `fail`. -/
def fail (fs : Text → Option Text) (trace : List Frame) (cerr : Text)
    (message file : Text) (line : Nat) (expressions : Text) (values : List Text) :
    Option Outcome :=
  match printStackTrace fs trace cerr with
  | none => none
  | some cerr =>
    let cerr := printHeader cerr file line message
    match printValues cerr expressions values with
    | none => none
    | some cerr => some (terminate cerr)

/-- The function that `errantibus.cpp` defines under the name `failAsset` (line 231). -/
def failAsset (fs : Text → Option Text) (trace : List Frame) (cerr : Text)
    (message condition file : Text) (line : Nat) (expressions : Text) (values : List Text) :
    Option Outcome :=
  match printStackTrace fs trace cerr with
  | none => none
  | some cerr =>
    let cerr := printHeader cerr file line message
    let cerr := cerr ++ "Expected true, but was false: ".toList ++ condition ++ "\n".toList
    match printValues cerr expressions values with
    | none => none
    | some cerr => some (terminate cerr)

/-- The function `failEq`. -/
def failEq (fs : Text → Option Text) (trace : List Frame) (cerr : Text)
    (message firstExpr firstValue secondExpr secondValue file : Text) (line : Nat)
    (expressions : Text) (values : List Text) : Option Outcome :=
  match printStackTrace fs trace cerr with
  | none => none
  | some cerr =>
    let cerr := printHeader cerr file line message
    let cerr := printArguments cerr "Should be equal, but was different:".toList
      firstExpr firstValue secondExpr secondValue
    match printValues cerr expressions values with
    | none => none
    | some cerr => some (terminate cerr)

/-- The function `failNeq`. -/
def failNeq (fs : Text → Option Text) (trace : List Frame) (cerr : Text)
    (message firstExpr firstValue secondExpr secondValue file : Text) (line : Nat)
    (expressions : Text) (values : List Text) : Option Outcome :=
  match printStackTrace fs trace cerr with
  | none => none
  | some cerr =>
    let cerr := printHeader cerr file line message
    let cerr := printArguments cerr "Should be different, but was equal:".toList
      firstExpr firstValue secondExpr secondValue
    match printValues cerr expressions values with
    | none => none
    | some cerr => some (terminate cerr)

/-- The function `failNote`. -/
def failNote (cerr : Text) (message file : Text) (line : Nat) : Outcome :=
  let cerr := printHeader cerr file line message
  let cerr := cerr ++ "Compilerd without debug assertions. Terminating...".toList
  terminate cerr

/-- The functions of namespace `errantibus::internal` that `errantibus.cpp` defines with
external linkage, by name (lines 53-64 and 215-275). -/
def definedFunctions : List String :=
  ["stringify", "printDebug", "fail", "failAsset", "failEq", "failNeq", "failNote"]

/-- The function the macro `assertAlways` of `errantibusDebug.hpp` calls when its
condition is false (line 108); the header declares it at line 87. -/
def assertAlwaysCallee : String := "failAssert"

/-! ## Quantities the claims about the splitter speak of -/

/-- The depth counter of `splitExpressions` after the character `c`, when it was `d`
before: one more after `(`, one less after `)` unless it is 0, unchanged otherwise. -/
def depthAfter (d : Nat) (c : Char) : Nat :=
  if c = '(' then d + 1 else if c = ')' ∧ d > 0 then d - 1 else d

/-- The number of commas of a text that stand at parenthesis depth 0, the depth counter
being `d` at the start of the text. -/
def depth0Commas : Text → Nat → Nat
  | [], _ => 0
  | c :: rest, d =>
    (if c = ',' ∧ d = 0 then 1 else 0) + depth0Commas rest (depthAfter d c)

/-- Whether the last character of a text is a comma at parenthesis depth 0, the depth
counter being `d` at the start of the text. -/
def endsInDepth0Comma : Text → Nat → Bool
  | [], _ => false
  | [c], d => decide (c = ',' ∧ d = 0)
  | c :: rest, d => endsInDepth0Comma rest (depthAfter d c)

/-- A well-formed expression string of an argument list: not empty, no whitespace at
either end, no prefix with more `)` than `(`, as many `(` as `)`, and every comma inside
parentheses (a prefix that ends with a comma has more `(` than `)`). -/
def WellFormedExpr (e : Text) : Prop :=
  e ≠ []
  ∧ (∀ c, e.head? = some c → isspace c = false)
  ∧ (∀ c, e.getLast? = some c → isspace c = false)
  ∧ (∀ p, p <+: e → p.count ')' ≤ p.count '(')
  ∧ e.count '(' = e.count ')'
  ∧ (∀ p, p <+: e → p.getLast? = some ',' → p.count ')' < p.count '(')

theorem splitLoop_eq_splitAcc (rest : Text) :
    ∀ (pre cur : Text) (d : Nat) (result : List Text),
      splitFinish (pre ++ cur ++ rest)
        (splitLoop (pre ++ cur ++ rest) rest (pre.length + cur.length) pre.length d result)
        = splitAcc rest cur d result := by
  induction rest with
  | nil =>
    intro pre cur d result
    cases cur with
    | nil => simp [splitLoop, splitAcc, splitFinish]
    | cons a cur => simp [splitLoop, splitAcc, splitFinish]
  | cons c rest ih =>
    intro pre cur d result
    have e1 : pre ++ cur ++ c :: rest = pre ++ (cur ++ [c]) ++ rest := by simp
    have e2 : pre ++ cur ++ c :: rest = (pre ++ cur ++ [c]) ++ [] ++ rest := by simp
    have hsub : substr (pre ++ cur ++ c :: rest) pre.length
        (pre.length + cur.length - pre.length) = cur := by
      simp [substr, List.append_assoc]
    have l1 : pre.length + (cur ++ [c]).length = pre.length + cur.length + 1 := by
      simp only [List.length_append, List.length_singleton]; omega
    have l2 : (pre ++ cur ++ [c]).length + ([] : Text).length = pre.length + cur.length + 1 := by
      simp only [List.length_append, List.length_singleton, List.length_nil]
    have l3 : (pre ++ cur ++ [c]).length = pre.length + cur.length + 1 := by
      simp only [List.length_append, List.length_singleton]
    simp only [splitLoop, splitAcc]
    split_ifs with h1 h2 h3
    · have := ih pre (cur ++ [c]) (d + 1) result
      rw [← e1, l1] at this
      exact this
    · have := ih pre (cur ++ [c]) (d - 1) result
      rw [← e1, l1] at this
      exact this
    · have := ih (pre ++ cur ++ [c]) [] d (result ++ [trim cur])
      rw [← e2, l2, l3] at this
      rw [hsub]
      exact this
    · have := ih pre (cur ++ [c]) d result
      rw [← e1, l1] at this
      exact this

theorem splitExpressions_eq_splitAcc (input : Text) :
    splitExpressions input = splitAcc input [] 0 [] := by
  have := splitLoop_eq_splitAcc input [] [] 0 []
  simpa [splitFinish, splitExpressions] using this

/-! ### Facts about `trim` -/

theorem trim_head_not_space (t : Text) (c : Char) (h : (trim t).head? = some c) :
    isspace c = false := by
  unfold trim at h
  obtain ⟨r, hr⟩ := List.rdropWhile_prefix isspace (l := t.dropWhile isspace)
  have h2 : (t.dropWhile isspace).head? = some c := by
    rw [← hr]
    cases hq : List.rdropWhile isspace (t.dropWhile isspace) with
    | nil => rw [hq] at h; simp at h
    | cons a q => rw [hq] at h; simpa using h
  have h3 := List.head?_dropWhile_not isspace t
  rw [h2] at h3
  simpa using h3

theorem trim_last_not_space (t : Text) (c : Char) (h : (trim t).getLast? = some c) :
    isspace c = false := by
  unfold trim at h
  have hne : List.rdropWhile isspace (t.dropWhile isspace) ≠ [] := by
    intro h0; rw [h0] at h; simp at h
  have h1 := List.rdropWhile_last_not isspace (t.dropWhile isspace) hne
  rw [List.getLast?_eq_getLast _ hne] at h
  have h2 : (List.rdropWhile isspace (t.dropWhile isspace)).getLast hne = c := by
    simpa using h
  rw [h2] at h1
  simpa using h1

theorem trim_eq_self (a b : Char) (m : Text) (ha : isspace a = false) (hb : isspace b = false) :
    trim (a :: (m ++ [b])) = a :: (m ++ [b]) := by
  unfold trim
  have h1 : (a :: (m ++ [b])).dropWhile isspace = a :: (m ++ [b]) := by
    simp [List.dropWhile, ha]
  rw [h1]
  have h2 : a :: (m ++ [b]) = (a :: m) ++ [b] := by simp
  rw [h2]
  exact List.rdropWhile_concat_neg isspace (a :: m) b (by simp [hb])

/-! ### Facts about the scan -/

theorem splitAcc_cons (c : Char) (rest cur : Text) (d : Nat) (result : List Text) :
    splitAcc (c :: rest) cur d result =
      if c = '(' then splitAcc rest (cur ++ [c]) (d + 1) result
      else if c = ')' ∧ d > 0 then splitAcc rest (cur ++ [c]) (d - 1) result
      else if c = ',' ∧ d = 0 then splitAcc rest [] d (result ++ [trim cur])
      else splitAcc rest (cur ++ [c]) d result := by
  simp only [splitAcc]

theorem splitAcc_nil (cur : Text) (d : Nat) (result : List Text) :
    splitAcc [] cur d result = if cur = [] then result else result ++ [trim cur] := by
  simp only [splitAcc]

/-- While the depth stays at least 1, the scan only extends the pending segment. -/
theorem splitAcc_nested (t : Text) :
    ∀ (rest cur : Text) (d : Nat) (result : List Text),
      (∀ p, p <+: t → p.count ')' < d + p.count '(') →
      splitAcc (t ++ rest) cur d result
        = splitAcc rest (cur ++ t) (d + t.count '(' - t.count ')') result := by
  induction t with
  | nil => intro rest cur d result _; simp
  | cons c t ih =>
    intro rest cur d result h
    have hd : 0 < d := by simpa using h [] (List.nil_prefix)
    have hstep : ∀ p, p <+: t → (c :: p).count ')' < d + (c :: p).count '(' := fun p hp =>
      h (c :: p) (by simpa using hp)
    have hfull := h (c :: t) (List.prefix_refl _)
    rw [List.cons_append, splitAcc_cons]
    split_ifs with h1 h2 h3
    · subst h1
      rw [ih rest _ (d + 1) result (fun p hp => by
        have := hstep p hp
        simp [List.count_cons] at this
        omega)]
      simp [List.count_cons]
      congr 1
      omega
    · obtain ⟨h2, _⟩ := h2
      subst h2
      rw [ih rest _ (d - 1) result (fun p hp => by
        have := hstep p hp
        simp [List.count_cons] at this
        omega)]
      simp [List.count_cons] at hfull ⊢
      congr 1
      omega
    · omega
    · have hc1 : ¬ (c = ')') := fun hc => h2 ⟨hc, hd⟩
      rw [ih rest _ d result (fun p hp => by
        have := hstep p hp
        simp [List.count_cons, h1, hc1] at this
        omega)]
      simp [List.count_cons, h1, hc1]

/-- Without a comma the scan only extends the pending segment. -/
theorem splitAcc_no_comma (t : Text) :
    ∀ (cur : Text) (d : Nat) (result : List Text), ',' ∉ t →
      splitAcc t cur d result
        = if cur ++ t = [] then result else result ++ [trim (cur ++ t)] := by
  induction t with
  | nil => intro cur d result _; simp [splitAcc_nil]
  | cons c t ih =>
    intro cur d result h
    have hc : c ≠ ',' := fun hc => h (by simp [hc])
    have ht : ',' ∉ t := fun ht => h (by simp [ht])
    rw [splitAcc_cons, if_neg (by simp : ¬ (cur ++ c :: t = []))]
    split_ifs with h1 h2 h3
    · rw [ih _ _ _ ht]; simp
    · rw [ih _ _ _ ht]; simp
    · exact absurd h3.1 hc
    · rw [ih _ _ _ ht]; simp

/-- Every segment the scan emits is the trimmed form of some text. -/
theorem splitAcc_mem (rest : Text) :
    ∀ (cur : Text) (d : Nat) (result : List Text) (seg : Text),
      seg ∈ splitAcc rest cur d result → seg ∈ result ∨ ∃ t, seg = trim t := by
  induction rest with
  | nil =>
    intro cur d result seg h
    simp only [splitAcc] at h
    split_ifs at h with h0
    · exact Or.inl h
    · rcases List.mem_append.mp h with h | h
      · exact Or.inl h
      · exact Or.inr ⟨cur, by simpa using h⟩
  | cons c rest ih =>
    intro cur d result seg h
    simp only [splitAcc] at h
    split_ifs at h with h1 h2 h3
    · exact ih _ _ _ _ h
    · exact ih _ _ _ _ h
    · rcases ih _ _ _ _ h with h | h
      · rcases List.mem_append.mp h with h | h
        · exact Or.inl h
        · exact Or.inr ⟨cur, by simpa using h⟩
      · exact Or.inr h
    · exact ih _ _ _ _ h

/-- Once a segment is pending or emitted, the scan's result is not empty. -/
theorem splitAcc_ne_nil (rest : Text) :
    ∀ (cur : Text) (d : Nat) (result : List Text),
      result ≠ [] ∨ cur ≠ [] → splitAcc rest cur d result ≠ [] := by
  induction rest with
  | nil =>
    intro cur d result h
    simp only [splitAcc]
    split_ifs with h0
    · rcases h with h | h
      · exact h
      · exact absurd h0 h
    · simp
  | cons c rest ih =>
    intro cur d result _
    simp only [splitAcc]
    split_ifs with h1 h2 h3
    · exact ih _ _ _ (Or.inr (by simp))
    · exact ih _ _ _ (Or.inr (by simp))
    · exact ih _ _ _ (Or.inl (by simp))
    · exact ih _ _ _ (Or.inr (by simp))

/-! ### Claims about the expression splitter -/

/-- C1: a comma is a separator only at parenthesis depth 0. For every text `s` in which no
prefix has more `)` than `(` and whose `(` and `)` counts are equal, splitting
`"(" ++ s ++ ")"` gives the one segment `"(" ++ s ++ ")"`, however many commas `s` has;
and splitting `"a, f(b,c), d"` gives exactly `["a", "f(b,c)", "d"]`. -/
theorem splitExpressions_comma_depth (s : Text)
    (hpre : ∀ p, p <+: s → p.count ')' ≤ p.count '(')
    (hbal : s.count '(' = s.count ')') :
    splitExpressions ("(".toList ++ s ++ ")".toList) = ["(".toList ++ s ++ ")".toList]
    ∧ splitExpressions "a, f(b,c), d".toList = ["a".toList, "f(b,c)".toList, "d".toList] := by
  refine ⟨?_, by decide⟩
  rw [splitExpressions_eq_splitAcc]
  have e : "(".toList ++ s ++ ")".toList = '(' :: (s ++ [')']) := by simp
  rw [e]
  have h1 : splitAcc ('(' :: (s ++ [')'])) [] 0 [] = splitAcc (s ++ [')']) ['('] 1 [] := by
    simp [splitAcc]
  rw [h1, splitAcc_nested s [')'] ['('] 1 [] (fun p hp => by have := hpre p hp; omega)]
  have h2 : 1 + s.count '(' - s.count ')' = 1 := by omega
  rw [h2]
  have h3 : ['('] ++ s ++ [')'] = '(' :: (s ++ [')']) := by simp
  simp only [splitAcc]
  simp only [List.nil_append, h3, trim_eq_self '(' ')' s (by decide) (by decide)]
  simp

/-- An instance of C1: `s = "a,(b,c),d"`. -/
theorem splitExpressions_comma_depth_witness :
    (∀ p, p <+: "a,(b,c),d".toList → p.count ')' ≤ p.count '(')
    ∧ "a,(b,c),d".toList.count '(' = "a,(b,c),d".toList.count ')'
    ∧ splitExpressions ("(".toList ++ "a,(b,c),d".toList ++ ")".toList)
      = ["(".toList ++ "a,(b,c),d".toList ++ ")".toList] :=
  have hpre : ∀ p, p <+: "a,(b,c),d".toList → p.count ')' ≤ p.count '(' := by
    intro p hp; rw [← List.mem_inits] at hp; revert p; decide
  ⟨hpre, by decide, (splitExpressions_comma_depth "a,(b,c),d".toList hpre (by decide)).1⟩

/-- C2: every segment `splitExpressions` returns is trimmed, that is, it neither starts nor
ends with a whitespace character; for every non-empty text without a comma the result is
exactly `[trim text]`; and `splitExpressions "  x  " = ["x"]`. -/
theorem splitExpressions_trimmed :
    (∀ (input seg : Text), seg ∈ splitExpressions input →
      (∀ c, seg.head? = some c → isspace c = false) ∧
      (∀ c, seg.getLast? = some c → isspace c = false))
    ∧ (∀ input : Text, ',' ∉ input → 0 < input.length →
        splitExpressions input = [trim input])
    ∧ splitExpressions "  x  ".toList = ["x".toList] := by
  refine ⟨?_, ?_, by decide⟩
  · intro input seg h
    rw [splitExpressions_eq_splitAcc] at h
    rcases splitAcc_mem input [] 0 [] seg h with h | ⟨t, rfl⟩
    · simp at h
    · exact ⟨fun c hc => trim_head_not_space t c hc, fun c hc => trim_last_not_space t c hc⟩
  · intro input hc hlen
    rw [splitExpressions_eq_splitAcc]
    rw [splitAcc_no_comma input [] 0 [] hc]
    have hne : input ≠ [] := by
      intro h0; rw [h0] at hlen; simp at hlen
    simp [hne]

/-- An instance of C2, at the text `"  f(x)  "` and its only segment, and at `"  x  "`. -/
theorem splitExpressions_trimmed_witness :
    "f(x)".toList ∈ splitExpressions "  f(x)  ".toList
    ∧ ((∀ c, "f(x)".toList.head? = some c → isspace c = false) ∧
      (∀ c, "f(x)".toList.getLast? = some c → isspace c = false))
    ∧ ',' ∉ "  x  ".toList ∧ 0 < "  x  ".toList.length
    ∧ splitExpressions "  x  ".toList = [trim "  x  ".toList] :=
  ⟨by decide,
   splitExpressions_trimmed.1 "  f(x)  ".toList "f(x)".toList (by decide),
   by decide, by decide,
   splitExpressions_trimmed.2.1 "  x  ".toList (by decide) (by decide)⟩

/-- C3: `splitExpressions` returns the empty sequence exactly for the empty text. -/
theorem splitExpressions_eq_nil_iff (text : Text) :
    splitExpressions text = [] ↔ text.length = 0 := by
  rw [splitExpressions_eq_splitAcc]
  constructor
  · intro h
    cases text with
    | nil => rfl
    | cons c rest =>
      exfalso
      simp only [splitAcc] at h
      split_ifs at h with h1 h2 h3
      · exact splitAcc_ne_nil _ _ _ _ (Or.inr (by simp)) h
      · exact splitAcc_ne_nil _ _ _ _ (Or.inr (by simp)) h
      · exact splitAcc_ne_nil _ _ _ _ (Or.inl (by simp)) h
      · exact splitAcc_ne_nil _ _ _ _ (Or.inr (by simp)) h
  · intro h
    have : text = [] := List.length_eq_zero.mp h
    subst this
    simp [splitAcc]

/-! ### Claims about the value stringifier -/

theorem writeChar_eq (out : Text) (u : Nat) (i : Int) (isSigned : Bool) (g : Text)
    (hg : specGlyph u = some g) :
    writeChar out u i isSigned = out ++ g ++ numericSuffix u i isSigned := by
  unfold specGlyph at hg
  unfold writeChar numericSuffix
  have hsz : specialChars.size = 32 := rfl
  split_ifs at hg with h1 h2 h3
  · have h1' : u < specialChars.size := by rw [hsz]; exact h1
    simp only [Option.some.injEq] at hg
    subst hg
    cases isSigned <;> simp [h1', Array.get_eq_getElem]
  · subst h2
    have h1' : ¬ 127 < specialChars.size := by rw [hsz]; exact h1
    simp only [Option.some.injEq] at hg
    subst hg
    cases isSigned <;> simp [h1', del]
  · have h1' : ¬ u < specialChars.size := by rw [hsz]; exact h1
    have h4 : u < del := by unfold del; omega
    have h5 : ¬ u = del := by unfold del; omega
    simp only [Option.some.injEq] at hg
    subst hg
    cases isSigned <;> simp [h1', h4, h5]

/-- C4: for a character-like value with unsigned code `u` in `0..127`, each of the three
character overloads of `stringify` first writes the backticked glyph of `u` (the mnemonic
`specialChars[u]` for `u` in `0..31`, `DEL` for `127`, the character itself for `32..126`)
and after it only the numeric suffix. -/
theorem stringify_char_glyph (charIsSigned : Bool) (out : Text) (u : Nat) (g : Text)
    (hg : specGlyph u = some g) :
    stringifyUnsignedChar out u
      = out ++ g ++ " numeric: ".toList ++ decimalNat u ++ " (unsigned)".toList
    ∧ (∀ obj : Int, -128 ≤ obj → obj ≤ 127 → toUnsignedChar obj = u →
        stringifySignedChar out obj
          = out ++ g ++ " numeric: ".toList ++ decimal obj ++ " (signed)".toList)
    ∧ (∀ obj : Int, charRange charIsSigned obj → toUnsignedChar obj = u →
        stringifyChar charIsSigned out obj
          = out ++ g ++ numericSuffix u obj charIsSigned)
    ∧ (∀ h : u < 32, g = "`".toList ++ specialChars.get ⟨u, h⟩ ++ "`".toList)
    ∧ (u = 127 → g = "`DEL`".toList)
    ∧ (32 ≤ u → u ≤ 126 → g = "`".toList ++ [Char.ofNat u] ++ "`".toList) := by
  refine ⟨?_, ?_, ?_, ?_, ?_, ?_⟩
  · unfold stringifyUnsignedChar
    rw [writeChar_eq out u _ false g hg]
    simp [numericSuffix]
  · intro obj _ _ hu
    unfold stringifySignedChar
    rw [hu, writeChar_eq out u _ true g hg]
    simp [numericSuffix]
  · intro obj _ hu
    unfold stringifyChar
    rw [hu, writeChar_eq out u _ charIsSigned g hg]
  · intro h
    simp [specGlyph, h] at hg
    exact hg.symm
  · intro h
    subst h
    simp [specGlyph] at hg
    exact hg.symm
  · intro h1 h2
    have h3 : ¬ u < 32 := by omega
    have h4 : ¬ u = 127 := by omega
    simp [specGlyph, h3, h4, h2] at hg
    exact hg.symm

/-- An instance of C4: the code 65 and its glyph, the letter `A` between backticks. -/
theorem stringify_char_glyph_witness :
    specGlyph 65 = some "`A`".toList
    ∧ stringifyUnsignedChar [] 65 = "`A` numeric: 65 (unsigned)".toList
    ∧ stringifySignedChar [] 65 = "`A` numeric: 65 (signed)".toList :=
  ⟨by decide,
   by simpa using (stringify_char_glyph true [] 65 "`A`".toList (by decide)).1,
   by simpa using (stringify_char_glyph true [] 65 "`A`".toList (by decide)).2.1 65
        (by decide) (by decide) (by decide)⟩

/-- What `writeChar` appends is a glyph that depends on the code `u` alone, followed by
the numeric suffix. -/
theorem writeChar_split (u : Nat) :
    ∃ g : Text, ∀ (out : Text) (i : Int) (isSigned : Bool),
      writeChar out u i isSigned = out ++ g ++ numericSuffix u i isSigned := by
  by_cases h1 : u < specialChars.size
  · refine ⟨"`".toList ++ specialChars[u] ++ "`".toList, fun out i sgn => ?_⟩
    cases sgn <;> simp [writeChar, numericSuffix, h1]
  · by_cases h2 : u = del
    · refine ⟨"`DEL`".toList, fun out i sgn => ?_⟩
      subst h2
      cases sgn <;> simp [writeChar, numericSuffix, h1]
    · by_cases h3 : u < del
      · refine ⟨"`".toList ++ [Char.ofNat u] ++ "`".toList, fun out i sgn => ?_⟩
        cases sgn <;> simp [writeChar, numericSuffix, h1, h2, h3]
      · refine ⟨[], fun out i sgn => ?_⟩
        cases sgn <;> simp [writeChar, numericSuffix, h1, h2, h3]

/-- C5: every character stringification ends with the numeric suffix carrying the value as
its source type holds it: `" numeric: <i> (signed)"` for a signed char `i` in `-128..127`,
`" numeric: <u> (unsigned)"` for an unsigned char `u` in `0..255`; and in the signed case
the glyph before the suffix is the one of the unsigned char with code `i mod 256`. -/
theorem stringify_char_numeric_suffix (out : Text) :
    (∀ i : Int, -128 ≤ i → i ≤ 127 →
      (" numeric: ".toList ++ decimal i ++ " (signed)".toList) <:+ stringifySignedChar out i)
    ∧ (∀ u : Nat, u ≤ 255 →
      (" numeric: ".toList ++ decimalNat u ++ " (unsigned)".toList)
        <:+ stringifyUnsignedChar out u)
    ∧ (∀ i : Int, -128 ≤ i → i ≤ 127 → ∃ g : Text,
        stringifySignedChar out i
          = out ++ g ++ (" numeric: ".toList ++ decimal i ++ " (signed)".toList)
        ∧ stringifyUnsignedChar out (i % 256).toNat
          = out ++ g ++ (" numeric: ".toList ++ decimalNat (i % 256).toNat
              ++ " (unsigned)".toList)) := by
  refine ⟨?_, ?_, ?_⟩
  · intro i _ _
    obtain ⟨g, hg⟩ := writeChar_split (toUnsignedChar i)
    refine ⟨out ++ g, ?_⟩
    rw [stringifySignedChar, hg]
    simp [numericSuffix]
  · intro u _
    obtain ⟨g, hg⟩ := writeChar_split u
    refine ⟨out ++ g, ?_⟩
    rw [stringifyUnsignedChar, hg]
    simp [numericSuffix]
  · intro i _ _
    obtain ⟨g, hg⟩ := writeChar_split (toUnsignedChar i)
    refine ⟨g, ?_, ?_⟩
    · rw [stringifySignedChar, hg]
      simp [numericSuffix]
    · rw [stringifyUnsignedChar]
      have := hg out (Int.ofNat (i % 256).toNat) false
      unfold toUnsignedChar at this
      rw [this]
      simp [numericSuffix]

/-- An instance of C5: the signed char `-3` (code 253) and the unsigned char `200`. -/
theorem stringify_char_numeric_suffix_witness :
    (" numeric: -3 (signed)".toList <:+ stringifySignedChar [] (-3))
    ∧ (" numeric: 200 (unsigned)".toList <:+ stringifyUnsignedChar [] 200) :=
  ⟨by simpa [decimal, decimalNat] using
      (stringify_char_numeric_suffix []).1 (-3) (by decide) (by decide),
   by simpa [decimalNat] using
      (stringify_char_numeric_suffix []).2.1 200 (by decide)⟩

/-- C6, the code at `toString(true)`: the overload a `bool` argument selects is declared
and not defined, so there is no code that renders `true` between backticks; the only
overload with a body that accepts a `bool`, the `StreamPrintable` template, writes the
digit: `1` between backticks for `true`, `0` between backticks for `false`. -/
theorem stringify_bool_undefined :
    "bool" ∈ stringifyDeclared
    ∧ "bool" ∉ stringifyDefined
    ∧ toString (stringifyStreamPrintable writeBool) true = "`1`".toList
    ∧ toString (stringifyStreamPrintable writeBool) true ≠ "`true`".toList
    ∧ toString (stringifyStreamPrintable writeBool) false = "`0`".toList
    ∧ toString (stringifyStreamPrintable writeBool) false ≠ "`false`".toList := by
  decide

theorem foldl_iterableStep {α : Type} (f : Text → α → Text)
    (hf : ∀ out x, f out x = out ++ f [] x) (xs : List α) :
    ∀ contents : Text,
      xs.foldl (iterableStep f) (contents, false)
        = (contents ++ (xs.map (fun x => ", ".toList ++ f [] x)).flatten, false) := by
  induction xs with
  | nil => intro contents; simp
  | cons x xs ih =>
    intro contents
    rw [List.foldl_cons]
    have : iterableStep f (contents, false) x = (contents ++ ", ".toList ++ f [] x, false) := by
      simp only [iterableStep, Bool.false_eq_true, if_false]
      rw [hf]
    rw [this, ih]
    simp

theorem intercalate_cons_eq {α : Type} (sep a : List α) (rest : List (List α)) :
    sep.intercalate (a :: rest) = a ++ (rest.map (fun x => sep ++ x)).flatten := by
  induction rest generalizing a with
  | nil => simp [List.intercalate]
  | cons b rest ih =>
    have h := ih b
    simp only [List.intercalate] at h ⊢
    simp only [List.intersperse_cons₂, List.flatten_cons, List.map_cons]
    rw [h]
    simp

/-- C7: for every iterable with elements `e0..e(n-1)`, `stringify` writes an opening brace,
the stringifications of the elements in order joined with `", "`, and a closing brace
(here for every element overload that only appends to its stream); an empty iterable gives
exactly the two braces, and the integer sequence `[1,2,3]` gives the three numbers, each
between backticks, joined with `", "` inside braces. -/
theorem stringify_iterable {α : Type} (stringifyElem : Text → α → Text)
    (hf : ∀ out x, stringifyElem out x = out ++ stringifyElem [] x)
    (out : Text) (obj : List α) :
    stringifyIterable stringifyElem out obj
      = out ++ "\x7b".toList
          ++ ", ".toList.intercalate (obj.map (toString stringifyElem)) ++ "\x7d".toList
    ∧ toString (stringifyIterable stringifyElem) [] = "\x7b\x7d".toList
    ∧ toString (stringifyIterable (stringifyStreamPrintable decimal)) [1, 2, 3]
        = "\x7b`1`, `2`, `3`\x7d".toList := by
  refine ⟨?_, by rfl, by decide⟩
  unfold stringifyIterable
  cases obj with
  | nil => simp [List.intercalate]
  | cons x xs =>
    rw [List.foldl_cons]
    have h1 : iterableStep stringifyElem ([], true) x = (stringifyElem [] x, false) := by
      simp [iterableStep]
    rw [h1, foldl_iterableStep stringifyElem hf, List.map_cons, intercalate_cons_eq]
    simp [toString, Function.comp_def]

/-- An instance of C7: a sequence of sequences of integers. -/
theorem stringify_iterable_witness :
    (∀ (out : Text) (x : List Int),
      stringifyIterable (stringifyStreamPrintable decimal) out x
        = out ++ stringifyIterable (stringifyStreamPrintable decimal) [] x)
    ∧ stringifyIterable (stringifyIterable (stringifyStreamPrintable decimal)) []
        [[1, 2], [], [3]]
      = "\x7b".toList
          ++ ", ".toList.intercalate
              ["\x7b`1`, `2`\x7d".toList, "\x7b\x7d".toList, "\x7b`3`\x7d".toList]
          ++ "\x7d".toList :=
  have hf : ∀ (out : Text) (x : List Int),
      stringifyIterable (stringifyStreamPrintable decimal) out x
        = out ++ stringifyIterable (stringifyStreamPrintable decimal) [] x :=
    fun out x => by simp [stringifyIterable]
  ⟨hf, (stringify_iterable (stringifyIterable (stringifyStreamPrintable decimal)) hf []
    [[1, 2], [], [3]]).1⟩

/-- What the fallback overload returns, for every value of every opaque type. -/
theorem toString_fallback {α : Type} (obj : α) :
    toString stringifyFallback obj = "not printable\n".toList := by
  rfl

/-- C8, the code at a value of an opaque type: `toString` returns `not printable` followed
by a newline, 14 characters, and not the string `not printable`. No other overload ends
with a newline: a container of two opaque values is rendered with a newline after each
element, and in the listing of `printValues`, which ends every line itself, the value is
followed by an empty line. -/
theorem toString_fallback_ne :
    toString stringifyFallback () ≠ "not printable".toList
    ∧ toString stringifyFallback () = "not printable\n".toList
    ∧ (toString stringifyFallback ()).length = 14
    ∧ (toString stringifyFallback ()).getLast? = some '\n'
    ∧ toString (stringifyIterable stringifyFallback) [(), ()]
      = "\x7bnot printable\n, not printable\n\x7d".toList
    ∧ printValues [] "x".toList [toString stringifyFallback ()]
      = some "\t(0) x = not printable\n\n".toList := by
  decide

/-! ### Claims about the report renderer and the source-context printer -/

theorem printValuesLoop_eq (exprs : List Text) (values : List Text) :
    ∀ (i : Nat) (cerr : Text), i + values.length ≤ exprs.length →
      printValuesLoop exprs values i cerr
        = some (cerr ++ ((List.range values.length).map (fun k =>
            "\t(".toList ++ decimalNat (i + k) ++ ") ".toList ++ exprs.getD (i + k) []
              ++ " = ".toList ++ values.getD k [] ++ "\n".toList)).flatten) := by
  induction values with
  | nil => intro i cerr _; simp [printValuesLoop]
  | cons v vs ih =>
    intro i cerr h
    have hi : i < exprs.length := by simp at h; omega
    have hget : exprs[i]? = some (exprs.getD i []) := by
      simp [List.getD, List.getElem?_eq_getElem hi]
    simp only [printValuesLoop, hget]
    rw [ih (i + 1) _ (by simp at h ⊢; omega)]
    simp only [List.length_cons, List.range_succ_eq_map, List.map_cons, List.map_map,
      List.flatten_cons, Nat.add_zero]
    have hfun : ((fun k => "\t(".toList ++ decimalNat (i + k) ++ ") ".toList
          ++ exprs.getD (i + k) [] ++ " = ".toList ++ (v :: vs).getD k [] ++ "\n".toList)
          ∘ Nat.succ)
        = (fun k => "\t(".toList ++ decimalNat (i + 1 + k) ++ ") ".toList
          ++ exprs.getD (i + 1 + k) [] ++ " = ".toList ++ vs.getD k [] ++ "\n".toList) := by
      funext k
      have e : i + k.succ = i + 1 + k := by omega
      simp [e]
    rw [hfun]
    simp

/-- C9: when `splitExpressions text` has at least as many segments as there are values,
`printValues` never indexes the segment list out of range (it returns a result) and
writes, for the indices `i = 0, ..., values.size - 1` in increasing order, the line
`"\t(" ++ decimal i ++ ") " ++ segment_i ++ " = " ++ value_i ++ "\n"`, and nothing else. -/
theorem printValues_listing (cerr text : Text) (values : List Text)
    (h : values.length ≤ (splitExpressions text).length) :
    printValues cerr text values
      = some (cerr ++ ((List.range values.length).map (fun i =>
          "\t(".toList ++ decimalNat i ++ ") ".toList ++ (splitExpressions text).getD i []
            ++ " = ".toList ++ values.getD i [] ++ "\n".toList)).flatten) := by
  unfold printValues
  rw [printValuesLoop_eq (splitExpressions text) values 0 cerr (by omega)]
  simp

/-- An instance of C9: two values and the three segments of `"x, f(y,z), w"`. -/
theorem printValues_listing_witness :
    ["`1`".toList, "`2`".toList].length ≤ (splitExpressions "x, f(y,z), w".toList).length
    ∧ printValues [] "x, f(y,z), w".toList ["`1`".toList, "`2`".toList]
      = some "\t(0) x = `1`\n\t(1) f(y,z) = `2`\n".toList := by
  refine ⟨by decide, ?_⟩
  rw [printValues_listing [] "x, f(y,z), w".toList ["`1`".toList, "`2`".toList] (by decide)]
  decide

theorem ignoreScan_line (l r : Text) (hl : '\n' ∉ l) :
    ignoreScan (l ++ '\n' :: r) = { rest := r, eofbit := false, failbit := false } := by
  induction l with
  | nil => simp [ignoreScan]
  | cons c l ih =>
    have hc : c ≠ '\n' := fun hc => hl (by simp [hc])
    have hl2 : '\n' ∉ l := fun h => hl (by simp [h])
    simp [ignoreScan, hc, ih hl2]

theorem takeWhile_line (l r : Text) (hl : '\n' ∉ l) :
    (l ++ '\n' :: r).takeWhile (fun c => c != '\n') = l := by
  induction l with
  | nil => simp [List.takeWhile]
  | cons c l ih =>
    have hc : (c != '\n') = true := by
      simp only [bne_iff_ne]; exact fun hc => hl (by simp [hc])
    have hl2 : '\n' ∉ l := fun h => hl (by simp [h])
    rw [List.cons_append, List.takeWhile_cons, hc, if_pos rfl, ih hl2]

theorem dropWhile_line (l r : Text) (hl : '\n' ∉ l) :
    (l ++ '\n' :: r).dropWhile (fun c => c != '\n') = '\n' :: r := by
  induction l with
  | nil => simp [List.dropWhile]
  | cons c l ih =>
    have hc : (c != '\n') = true := by
      simp only [bne_iff_ne]; exact fun hc => hl (by simp [hc])
    have hl2 : '\n' ∉ l := fun h => hl (by simp [h])
    rw [List.cons_append, List.dropWhile_cons, hc, if_pos rfl, ih hl2]

theorem getline_line (l r : Text) (hl : '\n' ∉ l) :
    getline { rest := l ++ '\n' :: r, eofbit := false, failbit := false }
      = ({ rest := r, eofbit := false, failbit := false }, l) := by
  simp only [getline, IfStream.good, takeWhile_line l r hl, dropWhile_line l r hl]
  simp

theorem skipLoop_lines (k : Nat) :
    ∀ ls : List Text, (∀ l ∈ ls, '\n' ∉ l) → k ≤ ls.length →
      skipLoop k { rest := fileOfLines ls, eofbit := false, failbit := false }
        = { rest := fileOfLines (ls.drop k), eofbit := false, failbit := false } := by
  induction k with
  | zero => intro ls _ _; simp [skipLoop]
  | succ k ih =>
    intro ls hls hk
    cases ls with
    | nil => simp at hk
    | cons l ls =>
      have h1 : fileOfLines (l :: ls) = l ++ '\n' :: fileOfLines ls := by
        simp [fileOfLines]
      simp only [skipLoop, ignoreLine, IfStream.good, h1, Bool.not_false, Bool.and_self,
        if_true]
      rw [ignoreScan_line l _ (hls l (by simp)),
        ih ls (fun x hx => hls x (by simp [hx])) (by simpa using hk)]
      simp

theorem readLoop_lines (k : Nat) :
    ∀ (ls : List Text) (lines : List Text), (∀ l ∈ ls, '\n' ∉ l) → k ≤ ls.length →
      readLoop k { rest := fileOfLines ls, eofbit := false, failbit := false } lines
        = lines ++ ls.take k := by
  induction k with
  | zero => intro ls lines _ _; simp [readLoop]
  | succ k ih =>
    intro ls lines hls hk
    cases ls with
    | nil => simp at hk
    | cons l ls =>
      have h1 : fileOfLines (l :: ls) = l ++ '\n' :: fileOfLines ls := by
        simp [fileOfLines]
      simp only [readLoop, h1, Bool.false_eq_true, if_false]
      rw [getline_line l _ (hls l (by simp))]
      simp only []
      rw [ih ls _ (fun x hx => hls x (by simp [hx])) (by simpa using hk)]
      simp

/-- The window `loadSourceContext` returns for a target line `n ≥ 3` of a file with at
least `n + 2` lines: the four lines `n - 2, ..., n + 1`. -/
theorem loadSourceContext_window (ls : List Text) (n : Nat) (hls : ∀ l ∈ ls, '\n' ∉ l)
    (hn : 3 ≤ n) (hlen : n + 2 ≤ ls.length) :
    loadSourceContext (some (fileOfLines ls)) n 2 2 = (ls.drop (n - 3)).take 4 := by
  have e1 : (max (1 : Int) ((n : Int) - 2) - 1).toNat = n - 3 := by
    rw [max_eq_right (by omega)]; omega
  have e2 : ((n : Int) + 2 - max (1 : Int) ((n : Int) - 2)).toNat = 4 := by
    rw [max_eq_right (by omega)]; omega
  simp only [loadSourceContext, e1, e2]
  rw [skipLoop_lines (n - 3) ls hls (by omega),
    readLoop_lines 4 _ [] (fun x hx => hls x (List.mem_of_mem_drop hx))
      (by simp; omega)]
  simp

/-- C10, the code at a ten-line file and target line 5: `loadSourceContext` returns four
lines, the file lines 3 to 6, and `printSourceContext` prints these four lines, labelled
3, 4, 5 and 6, the one labelled 5 highlighted; file line 7 is not read. -/
theorem loadSourceContext_ten_lines :
    loadSourceContext (some tenLines) 5 2 2
      = ["c".toList, "d".toList, "e".toList, "f".toList]
    ∧ (loadSourceContext (some tenLines) 5 2 2).length = 4
    ∧ printSourceContext [] (some tenLines) 5
      = ("         3 |\tc\n".toList ++ "         4 |\td\n".toList
          ++ ("       ".toList ++ blue ++ "> 5 |\te".toList ++ reset ++ "\n".toList)
          ++ "         6 |\tf\n".toList) := by
  decide

/-! ### Claims about the failure reports -/

theorem printHeader_eq (cerr file msg : Text) (line : Nat) :
    printHeader cerr file line msg
      = cerr ++ (red ++ bold ++ file ++ ":".toList ++ decimalNat line
          ++ (if msg = [] then [] else " - ".toList ++ msg) ++ reset ++ "\n".toList) := by
  cases msg with
  | nil => simp [printHeader]
  | cons c msg => simp [printHeader]

/-- C12: `printHeader` writes the header line: for every file, line and message the output
is `red ++ bold ++ file ++ ":" ++ decimal line`, then `" - " ++ message` if and only if
the message is not empty, then `reset ++ "\n"`. -/
theorem printHeader_line (cerr file msg : Text) (line : Nat) :
    printHeader cerr file line msg
      = cerr ++ red ++ bold ++ file ++ ":".toList ++ decimalNat line
          ++ (if msg = [] then [] else " - ".toList ++ msg) ++ reset ++ "\n".toList := by
  rw [printHeader_eq]
  simp

/-- C13, as the code has it: the whole output of `failNote(message, file, line)` is the
header line for `(file, line, message)`, then the notice
`Compilerd without debug assertions. Terminating...`, then the newline of `terminate`,
after which the process is terminated; no expression, value or stack trace is written. -/
theorem failNote_output (cerr message file : Text) (line : Nat) :
    failNote cerr message file line
      = Outcome.terminated (cerr ++ red ++ bold ++ file ++ ":".toList ++ decimalNat line
          ++ (if message = [] then [] else " - ".toList ++ message) ++ reset ++ "\n".toList
          ++ "Compilerd without debug assertions. Terminating...".toList ++ "\n".toList) := by
  simp only [failNote, terminate, printHeader_eq]
  simp

/-- C13 as stated fails: for the message `m`, the file `f` and the line 1 the output is not
the header line followed by a blank line; a notice of 50 characters stands between the
header line and the final newline. -/
theorem failNote_output_ne :
    failNote [] "m".toList "f".toList 1
      ≠ Outcome.terminated (printHeader [] "f".toList 1 "m".toList ++ "\n".toList)
    ∧ failNote [] "m".toList "f".toList 1
      = Outcome.terminated (printHeader [] "f".toList 1 "m".toList
          ++ "Compilerd without debug assertions. Terminating...".toList ++ "\n".toList)
    ∧ "Compilerd without debug assertions. Terminating...".toList.length = 50 := by
  decide

/-- The listing `printValues` writes when there are enough segments. -/
theorem printValues_eq (cerr text : Text) (values : List Text)
    (h : values.length ≤ (splitExpressions text).length) :
    printValues cerr text values
      = some (cerr ++ ((List.range values.length).map (fun i =>
          "\t(".toList ++ decimalNat i ++ ") ".toList ++ (splitExpressions text).getD i []
            ++ " = ".toList ++ values.getD i [] ++ "\n".toList)).flatten) := by
  unfold printValues
  rw [printValuesLoop_eq (splitExpressions text) values 0 cerr (by omega)]
  simp

/-- C14: for inputs with enough expression segments `printDebug` writes exactly the header
of `(file, line, "")`, which has no `" - "` part, followed by the `printValues` listing,
and returns normally; the text written does not depend on what the stream held before, so
a second call with the same inputs writes the same bytes again. -/
theorem printDebug_deterministic (file expressions : Text) (line : Nat) (values : List Text)
    (h : values.length ≤ (splitExpressions expressions).length) :
    ∃ report : Text,
      report = red ++ bold ++ file ++ ":".toList ++ decimalNat line ++ reset ++ "\n".toList
        ++ ((List.range values.length).map (fun i =>
          "\t(".toList ++ decimalNat i ++ ") ".toList
            ++ (splitExpressions expressions).getD i []
            ++ " = ".toList ++ values.getD i [] ++ "\n".toList)).flatten
      ∧ (∀ cerr : Text, printDebug cerr file line expressions values
          = some (Outcome.returned (cerr ++ report)))
      ∧ (∀ cerr : Text, printDebug (cerr ++ report) file line expressions values
          = some (Outcome.returned (cerr ++ report ++ report))) := by
  refine ⟨_, rfl, ?_, ?_⟩
  · intro cerr
    simp only [printDebug, printValues_eq _ _ _ h, printHeader_eq]
    simp
  · intro cerr
    simp only [printDebug, printValues_eq _ _ _ h, printHeader_eq]
    simp

/-- An instance of C14: two values and the two segments of `"x, y"`. -/
theorem printDebug_deterministic_witness :
    ["`1`".toList, "`2`".toList].length ≤ (splitExpressions "x, y".toList).length
    ∧ ∃ report : Text,
      report = red ++ bold ++ "a.cpp".toList ++ ":".toList ++ decimalNat 3 ++ reset
        ++ "\n".toList
        ++ ((List.range ["`1`".toList, "`2`".toList].length).map (fun i =>
          "\t(".toList ++ decimalNat i ++ ") ".toList
            ++ (splitExpressions "x, y".toList).getD i []
            ++ " = ".toList ++ ["`1`".toList, "`2`".toList].getD i [] ++ "\n".toList)).flatten
      ∧ (∀ cerr : Text, printDebug cerr "a.cpp".toList 3 "x, y".toList
          ["`1`".toList, "`2`".toList] = some (Outcome.returned (cerr ++ report)))
      ∧ (∀ cerr : Text, printDebug (cerr ++ report) "a.cpp".toList 3 "x, y".toList
          ["`1`".toList, "`2`".toList] = some (Outcome.returned (cerr ++ report ++ report))) :=
  ⟨by decide,
   printDebug_deterministic "a.cpp".toList "x, y".toList 3 ["`1`".toList, "`2`".toList]
    (by decide)⟩

theorem downLoop_eq (fuel : Nat) :
    ∀ (i skipTop : Int), (i - skipTop + 1).toNat ≤ fuel →
      downLoop fuel i skipTop
        = (List.range (i - skipTop + 1).toNat).map (fun k : Nat => i - k) := by
  induction fuel with
  | zero =>
    intro i skipTop h
    have h0 : (i - skipTop + 1).toNat = 0 := by omega
    simp [downLoop, h0]
  | succ fuel ih =>
    intro i skipTop h
    simp only [downLoop]
    split_ifs with hi
    · have e : (i - skipTop + 1).toNat = (i - 1 - skipTop + 1).toNat + 1 := by omega
      rw [ih (i - 1) skipTop (by omega), e, List.range_succ_eq_map]
      simp only [List.map_cons, List.map_map, Nat.cast_zero, sub_zero, List.cons.injEq,
        true_and]
      apply List.map_congr_left
      intro k _
      simp only [Function.comp_apply, Nat.succ_eq_add_one, Nat.cast_add, Nat.cast_one]
      omega
    · have h0 : (i - skipTop + 1).toNat = 0 := by omega
      simp [h0]

theorem frameIndices_eq (n : Nat) :
    frameIndices n = (List.range (n - 5)).map (fun k : Nat => (n : Int) - 4 - k) := by
  unfold frameIndices
  simp only []
  rw [downLoop_eq _ _ _ (by omega)]
  have e : ((n : Int) - 3 - 1 - 2 + 1).toNat = n - 5 := by omega
  rw [e]
  apply List.map_congr_left
  intro k _
  omega

theorem mem_frameIndices (n : Nat) (i : Int) :
    i ∈ frameIndices n ↔ 2 ≤ i ∧ i ≤ (n : Int) - 4 := by
  rw [frameIndices_eq]
  simp only [List.mem_map, List.mem_range]
  constructor
  · rintro ⟨k, hk, rfl⟩
    omega
  · intro h
    refine ⟨((n : Int) - 4 - i).toNat, by omega, by omega⟩

theorem foldlM_printFrame_isSome (fs : Text → Option Text) (trace : List Frame)
    (l : List Int) :
    ∀ cerr : Text, (∀ i ∈ l, 0 ≤ i ∧ i < (trace.length : Int)) →
      ∃ out, l.foldlM (printFrame fs trace) cerr = some out := by
  induction l with
  | nil => intro cerr _; exact ⟨cerr, rfl⟩
  | cons i l ih =>
    intro cerr h
    obtain ⟨h0, h1⟩ := h i (by simp)
    have hlt : i.toNat < trace.length := by omega
    have hstep : ∃ c, printFrame fs trace cerr i = some c := by
      unfold printFrame
      rw [if_neg (by omega), List.getElem?_eq_getElem hlt]
      simp only []
      split_ifs
      · exact ⟨_, rfl⟩
      · exact ⟨_, rfl⟩
    obtain ⟨c, hc⟩ := hstep
    obtain ⟨out, hout⟩ := ih c (fun j hj => h j (by simp [hj]))
    refine ⟨out, ?_⟩
    rw [List.foldlM_cons, hc]
    exact hout

theorem printStackTrace_some (fs : Text → Option Text) (trace : List Frame) (cerr : Text) :
    ∃ out, printStackTrace fs trace cerr = some out := by
  unfold printStackTrace
  simp only []
  obtain ⟨out, hout⟩ := foldlM_printFrame_isSome fs trace (frameIndices trace.length)
    (cerr ++ "\n".toList ++ yellow ++ bold
      ++ "Stacktrace (most recent call last):".toList ++ reset ++ "\n".toList)
    (fun i hi => by
      have := (mem_frameIndices trace.length i).1 hi
      omega)
  rw [hout]
  exact ⟨_, rfl⟩

/-- The report of `failAsset`: stack trace, header, the line with the condition text, the
values listing and the newline of `terminate`. -/
theorem failAsset_report (fs : Text → Option Text) (trace : List Frame)
    (cerr message condition file expressions : Text) (line : Nat) (values : List Text)
    (h : values.length ≤ (splitExpressions expressions).length) :
    ∃ stack : Text, printStackTrace fs trace cerr = some stack
      ∧ failAsset fs trace cerr message condition file line expressions values
        = some (Outcome.terminated (stack
            ++ (red ++ bold ++ file ++ ":".toList ++ decimalNat line
              ++ (if message = [] then [] else " - ".toList ++ message) ++ reset
              ++ "\n".toList)
            ++ ("Expected true, but was false: ".toList ++ condition ++ "\n".toList)
            ++ ((List.range values.length).map (fun i =>
                "\t(".toList ++ decimalNat i ++ ") ".toList
                  ++ (splitExpressions expressions).getD i []
                  ++ " = ".toList ++ values.getD i [] ++ "\n".toList)).flatten
            ++ "\n".toList)) := by
  obtain ⟨stack, hs⟩ := printStackTrace_some fs trace cerr
  refine ⟨stack, hs, ?_⟩
  simp only [failAsset, hs, printValues_eq _ _ _ h, printHeader_eq, terminate]
  simp

/-- C11, the code at `assertAlways(1 == 2, "numbers differ")`: the macro calls `failAssert`,
a name that `errantibus.cpp` does not define; the function it defines is `failAsset`,
whose report for this call (here from line 7 of `main.cpp`, with an empty trace and no
extra arguments) has the message in the header and the line
`Expected true, but was false: 1 == 2` in the body. -/
theorem assertAlways_callee_undefined :
    assertAlwaysCallee ∉ definedFunctions
    ∧ "failAsset" ∈ definedFunctions
    ∧ failAsset (fun _ => none) [] [] "numbers differ".toList "1 == 2".toList
        "main.cpp".toList 7 [] []
      = some (Outcome.terminated ("\n".toList ++ yellow ++ bold
          ++ "Stacktrace (most recent call last):".toList ++ reset ++ "\n".toList
          ++ "\n".toList
          ++ red ++ bold ++ "main.cpp:7 - numbers differ".toList ++ reset ++ "\n".toList
          ++ "Expected true, but was false: 1 == 2\n".toList
          ++ "\n".toList)) := by
  decide

/-- C19: `failEq` and `failNeq` write the same report but for the wording of the first
line of the comparison block: after the same stack trace, header and indentation comes
`Should be equal, but was different:` or `Should be different, but was equal:`, and then
in both the rows `Left value:`, `is:`, `Right value:`, `is:` with `firstExpr`,
`firstValue`, `secondExpr`, `secondValue` in this order, the values listing and the
newline of `terminate`. -/
theorem failEq_failNeq_report (fs : Text → Option Text) (trace : List Frame)
    (cerr message firstExpr firstValue secondExpr secondValue file expressions : Text)
    (line : Nat) (values : List Text)
    (h : values.length ≤ (splitExpressions expressions).length) :
    ∃ pre post : Text,
      failEq fs trace cerr message firstExpr firstValue secondExpr secondValue file line
          expressions values
        = some (Outcome.terminated
            (pre ++ "Should be equal, but was different:".toList ++ post))
      ∧ failNeq fs trace cerr message firstExpr firstValue secondExpr secondValue file line
          expressions values
        = some (Outcome.terminated
            (pre ++ "Should be different, but was equal:".toList ++ post))
      ∧ (∃ stack, printStackTrace fs trace cerr = some stack
          ∧ pre = printHeader stack file line message ++ "   ".toList)
      ∧ post = "\n".toList
          ++ "   Left value:  ".toList ++ firstExpr ++ "\n".toList
          ++ "           is:  ".toList ++ firstValue ++ "\n".toList
          ++ "   Right value: ".toList ++ secondExpr ++ "\n".toList
          ++ "            is: ".toList ++ secondValue ++ "\n".toList
          ++ ((List.range values.length).map (fun i =>
              "\t(".toList ++ decimalNat i ++ ") ".toList
                ++ (splitExpressions expressions).getD i []
                ++ " = ".toList ++ values.getD i [] ++ "\n".toList)).flatten
          ++ "\n".toList := by
  obtain ⟨stack, hs⟩ := printStackTrace_some fs trace cerr
  refine ⟨printHeader stack file line message ++ "   ".toList, _, ?_, ?_, ⟨stack, hs, rfl⟩,
    rfl⟩
  · simp only [failEq, hs, printValues_eq _ _ _ h, printArguments, terminate]
    simp
  · simp only [failNeq, hs, printValues_eq _ _ _ h, printArguments, terminate]
    simp

/-- An instance of C19: the comparison of `a` and `b` with the values 1 and 2, one extra
argument `x`, and an empty trace. -/
theorem failEq_failNeq_report_witness :
    ["`3`".toList].length ≤ (splitExpressions "x".toList).length
    ∧ failEq (fun _ => none) [] [] "m".toList "a".toList "`1`".toList "b".toList
        "`2`".toList "f.cpp".toList 9 "x".toList ["`3`".toList]
      = some (Outcome.terminated ("\n".toList ++ yellow ++ bold
          ++ "Stacktrace (most recent call last):".toList ++ reset ++ "\n\n".toList
          ++ red ++ bold ++ "f.cpp:9 - m".toList ++ reset ++ "\n".toList
          ++ "   Should be equal, but was different:\n".toList
          ++ "   Left value:  a\n".toList
          ++ "           is:  `1`\n".toList
          ++ "   Right value: b\n".toList
          ++ "            is: `2`\n".toList
          ++ "\t(0) x = `3`\n".toList
          ++ "\n".toList)) := by
  refine ⟨by decide, ?_⟩
  obtain ⟨pre, post, h1, _, ⟨stack, hs, hpre⟩, hpost⟩ :=
    failEq_failNeq_report (fun _ => none) [] [] "m".toList "a".toList "`1`".toList
      "b".toList "`2`".toList "f.cpp".toList "x".toList 9 ["`3`".toList] (by decide)
  rw [h1]
  have hs2 : printStackTrace (fun _ => none) [] [] = some ("\n".toList ++ yellow ++ bold
      ++ "Stacktrace (most recent call last):".toList ++ reset ++ "\n\n".toList) := by
    decide
  rw [hs2] at hs
  cases hs
  subst hpre hpost
  rfl

/-- C20: a line printed by `printSourceContext` whose label has at most 8 characters
carries, before the separator `" |\t"` and apart from the colour escape sequence, exactly
10 characters: spaces, then the marker (`"> "` on the highlighted line, two spaces
otherwise), then the decimal label. -/
theorem printContextLine_width (loc before : Int) (cerr : Text) (i : Nat) (line : Text)
    (h : (decimal (loc - before + i)).length ≤ 8) :
    ∃ pad : Nat,
      printContextLine loc before cerr i line
        = cerr ++ List.replicate pad ' '
            ++ (if (i : Int) = before then blue else [])
            ++ (if (i : Int) = before then "> ".toList else "  ".toList)
            ++ decimal (loc - before + i) ++ " |\t".toList ++ line
            ++ (if (i : Int) = before then reset else [])
            ++ "\n".toList
      ∧ (List.replicate pad ' '
            ++ (if (i : Int) = before then "> ".toList else "  ".toList)
            ++ decimal (loc - before + i)).length = 10 := by
  refine ⟨8 - (decimal (loc - before + i)).length, ?_, ?_⟩
  · have hp : (10 - ((toString (stringifyStreamPrintable decimal)
        (loc - before + (i : Int))).length : Int)).toNat
        = 8 - (decimal (loc - before + i)).length := by
      simp only [toString, stringifyStreamPrintable, List.nil_append, List.length_append,
        String.toList, List.length_cons, List.length_nil]
      omega
    unfold printContextLine
    simp only [hp]
    split_ifs <;> simp
  · split_ifs <;> simp <;> omega

/-- An instance of C20: the highlighted line with label 5 (target 5, index 2). -/
theorem printContextLine_width_witness :
    (decimal (5 - 2 + ((2 : Nat) : Int))).length ≤ 8
    ∧ printContextLine 5 2 [] 2 "e".toList
      = "       ".toList ++ blue ++ "> 5 |\te".toList ++ reset ++ "\n".toList := by
  refine ⟨by decide, ?_⟩
  obtain ⟨pad, h1, h2⟩ := printContextLine_width 5 2 [] 2 "e".toList (by decide)
  have hd : decimal (5 - 2 + ((2 : Nat) : Int)) = "5".toList := by decide
  rw [hd] at h1 h2
  have hpad : pad = 7 := by simpa using h2
  subst hpad
  rw [h1]
  decide

/-- C15, the code at the targets 1 and 2 of a ten-line file, where the window start is
clamped to line 1. For target 1 the file lines 1 and 2 are printed with the labels -1 and
0 and no line is highlighted; for target 2 the file lines 1, 2 and 3 are printed with the
labels 0, 1 and 2, and the highlighted line, labelled 2, is file line 3. -/
theorem printSourceContext_clamped :
    loadSourceContext (some tenLines) 1 2 2 = ["a".toList, "b".toList]
    ∧ printSourceContext [] (some tenLines) 1
      = "        -1 |\ta\n".toList ++ "         0 |\tb\n".toList
    ∧ loadSourceContext (some tenLines) 2 2 2 = ["a".toList, "b".toList, "c".toList]
    ∧ printSourceContext [] (some tenLines) 2
      = "         0 |\ta\n".toList ++ "         1 |\tb\n".toList
          ++ ("       ".toList ++ blue ++ "> 2 |\tc".toList ++ reset ++ "\n".toList) := by
  decide

/-! ### Segment count and the inverse of joining -/

theorem splitAcc_cons_depth (c : Char) (rest cur : Text) (d : Nat) (result : List Text) :
    splitAcc (c :: rest) cur d result =
      if c = ',' ∧ d = 0 then splitAcc rest [] d (result ++ [trim cur])
      else splitAcc rest (cur ++ [c]) (depthAfter d c) result := by
  rw [splitAcc_cons]
  unfold depthAfter
  by_cases h1 : c = '('
  · subst h1
    simp
  · by_cases h2 : c = ')' ∧ d > 0
    · obtain ⟨h2a, h2b⟩ := h2
      subst h2a
      simp [h2b]
    · simp [h1, h2]

theorem endsInDepth0Comma_cons (c : Char) (rest : Text) (d : Nat) :
    endsInDepth0Comma (c :: rest) d
      = if rest = [] then decide (c = ',' ∧ d = 0)
        else endsInDepth0Comma rest (depthAfter d c) := by
  cases rest with
  | nil => simp [endsInDepth0Comma]
  | cons b rest => simp [endsInDepth0Comma]

theorem splitAcc_length (rest : Text) :
    ∀ (cur : Text) (d : Nat) (result : List Text),
      (splitAcc rest cur d result).length
        = result.length + depth0Commas rest d
          + (if (rest = [] ∧ cur = []) ∨ endsInDepth0Comma rest d = true then 0 else 1) := by
  induction rest with
  | nil =>
    intro cur d result
    rw [splitAcc_nil]
    by_cases hc : cur = []
    · simp [hc, depth0Commas, endsInDepth0Comma]
    · simp [hc, depth0Commas, endsInDepth0Comma]
  | cons c rest ih =>
    intro cur d result
    rw [splitAcc_cons_depth, endsInDepth0Comma_cons]
    simp only [depth0Commas]
    by_cases hsep : c = ',' ∧ d = 0
    · have hd : depthAfter d c = d := by
        obtain ⟨hc, _⟩ := hsep
        subst hc
        simp [depthAfter]
      rw [if_pos hsep, ih, hd]
      by_cases hr : rest = []
      · subst hr
        simp [hsep, depth0Commas, endsInDepth0Comma]
      · simp [hr, hsep]
        omega
    · rw [if_neg hsep, ih]
      by_cases hr : rest = []
      · subst hr
        simp [hsep, depth0Commas, endsInDepth0Comma]
      · simp [hr, hsep]

/-- C16: the number of segments `splitExpressions` returns is `k + 1` when the text is not
empty and its last character is not a comma at depth 0, and `k` when the text is empty or
ends in a comma at depth 0, where `k` is the number of commas at parenthesis depth 0; a
trailing segment of whitespace is emitted as the empty string: `"a, "` gives `["a", ""]`
and `"a,"` gives `["a"]`. -/
theorem splitExpressions_length (text : Text) :
    (splitExpressions text).length
      = depth0Commas text 0
        + (if text = [] ∨ endsInDepth0Comma text 0 = true then 0 else 1)
    ∧ splitExpressions "a, ".toList = ["a".toList, []]
    ∧ splitExpressions "a,".toList = ["a".toList] := by
  refine ⟨?_, by decide, by decide⟩
  rw [splitExpressions_eq_splitAcc, splitAcc_length]
  simp

/-- A text in which the depth counter never has to be clamped and no comma stands at
depth 0 only extends the pending segment. -/
theorem splitAcc_no_separator (t : Text) :
    ∀ (rest cur : Text) (d : Nat) (result : List Text),
      (∀ p, p <+: t → p.count ')' ≤ d + p.count '(') →
      (∀ p, p <+: t → p.getLast? = some ',' → p.count ')' < d + p.count '(') →
      splitAcc (t ++ rest) cur d result
        = splitAcc rest (cur ++ t) (d + t.count '(' - t.count ')') result := by
  induction t with
  | nil => intro rest cur d result _ _; simp
  | cons c t ih =>
    intro rest cur d result h1 h2
    have hstep1 : ∀ p, p <+: t → (c :: p).count ')' ≤ d + (c :: p).count '(' := fun p hp =>
      h1 (c :: p) (by simpa using hp)
    have hstep2 : ∀ p, p <+: t → p.getLast? = some ',' →
        (c :: p).count ')' < d + (c :: p).count '(' := fun p hp hl =>
      h2 (c :: p) (by simpa using hp) (by
        cases p with
        | nil => simp at hl
        | cons b p => simpa [List.getLast?_cons_cons] using hl)
    have hfull := h1 (c :: t) (List.prefix_refl _)
    have hone := h1 [c] (by simp)
    rw [List.cons_append, splitAcc_cons]
    split_ifs with c1 c2 c3
    · subst c1
      rw [ih rest _ (d + 1) result
        (fun p hp => by have := hstep1 p hp; simp [List.count_cons] at this; omega)
        (fun p hp hl => by have := hstep2 p hp hl; simp [List.count_cons] at this; omega)]
      simp [List.count_cons]
      congr 1
      omega
    · obtain ⟨c2, hd⟩ := c2
      subst c2
      simp [List.count_cons] at hone
      rw [ih rest _ (d - 1) result
        (fun p hp => by have := hstep1 p hp; simp [List.count_cons] at this; omega)
        (fun p hp hl => by have := hstep2 p hp hl; simp [List.count_cons] at this; omega)]
      simp [List.count_cons] at hfull ⊢
      congr 1
      omega
    · obtain ⟨c3, hd⟩ := c3
      subst c3
      have := h2 [','] (by simp) (by simp)
      simp [List.count_cons] at this
      omega
    · have hc1 : ¬ (c = ')') := by
        intro hc
        subst hc
        simp [List.count_cons] at hone
        exact c2 ⟨rfl, by omega⟩
      rw [ih rest _ d result
        (fun p hp => by
          have := hstep1 p hp; simp [List.count_cons, c1, hc1] at this; omega)
        (fun p hp hl => by
          have := hstep2 p hp hl; simp [List.count_cons, c1, hc1] at this; omega)]
      simp [List.count_cons, c1, hc1]

theorem splitAcc_wellFormed (e rest cur : Text) (result : List Text)
    (he : WellFormedExpr e) :
    splitAcc (e ++ rest) cur 0 result = splitAcc rest (cur ++ e) 0 result := by
  obtain ⟨_, _, _, h1, h2, h3⟩ := he
  rw [splitAcc_no_separator e rest cur 0 result
    (fun p hp => by have := h1 p hp; omega)
    (fun p hp hl => by have := h3 p hp hl; omega)]
  congr 1
  omega

theorem trim_wellFormed (e : Text) (he : WellFormedExpr e) :
    trim e = e ∧ trim (' ' :: e) = e := by
  obtain ⟨hne, hh, hl, _, _, _⟩ := he
  have h1 : e.dropWhile isspace = e := by
    cases e with
    | nil => rfl
    | cons a m =>
      have := hh a (by simp)
      simp [List.dropWhile, this]
  have h2 : e.rdropWhile isspace = e := by
    rw [List.rdropWhile_eq_self_iff]
    intro hne2
    have := hl (e.getLast hne2) (List.getLast?_eq_getLast e hne2)
    simp [this]
  have h3 : trim e = e := by
    unfold trim
    rw [h1, h2]
  refine ⟨h3, ?_⟩
  have h4 : (' ' :: e).dropWhile isspace = e.dropWhile isspace := by
    rw [List.dropWhile_cons]
    simp [isspace]
  unfold trim
  rw [h4, h1, h2]

theorem splitAcc_joined (es : List Text) :
    ∀ (e cur : Text) (result : List Text), WellFormedExpr e → (∀ x ∈ es, WellFormedExpr x) →
      trim (cur ++ e) = e →
      splitAcc (e ++ (es.map (fun x => ", ".toList ++ x)).flatten) cur 0 result
        = result ++ (e :: es) := by
  induction es with
  | nil =>
    intro e cur result he _ ht
    have hne : cur ++ e ≠ [] := by
      have := he.1
      simp [this]
    have := splitAcc_wellFormed e [] cur result he
    simp only [List.append_nil] at this
    simp only [List.map_nil, List.flatten_nil, List.append_nil]
    rw [this, splitAcc_nil, if_neg hne, ht]
  | cons e2 es ih =>
    intro e cur result he hes ht
    have he2 : WellFormedExpr e2 := hes e2 (by simp)
    have hes2 : ∀ x ∈ es, WellFormedExpr x := fun x hx => hes x (by simp [hx])
    have hflat : ((e2 :: es).map (fun x => ", ".toList ++ x)).flatten
        = ',' :: ' ' :: (e2 ++ (es.map (fun x => ", ".toList ++ x)).flatten) := by
      simp
    rw [hflat, splitAcc_wellFormed e _ cur result he, splitAcc_cons]
    simp only [show ¬ (',' = '(') by decide, show ¬ (',' = ')') by decide, if_false,
      false_and, true_and, if_true]
    rw [splitAcc_cons]
    simp only [show ¬ (' ' = '(') by decide, show ¬ (' ' = ')') by decide,
      show ¬ (' ' = ',') by decide, if_false, false_and, List.nil_append]
    rw [ih e2 [' '] _ he2 hes2 (by simpa using (trim_wellFormed e2 he2).2), ht]
    simp

/-- C17: splitting undoes joining. For every non-empty list `es` of well-formed expression
strings (not empty, no whitespace at either end, balanced parentheses, every comma inside
parentheses), `splitExpressions` of the strings joined with `", "` is `es`; hence for as
many values as expressions `printValues` is in range and pairs expression `i` with value
`i`. -/
theorem splitExpressions_joined (es : List Text) (hne : es ≠ [])
    (hes : ∀ e ∈ es, WellFormedExpr e) :
    splitExpressions (", ".toList.intercalate es) = es
    ∧ (∀ (cerr : Text) (values : List Text), values.length = es.length →
        printValues cerr (", ".toList.intercalate es) values
          = some (cerr ++ ((List.range es.length).map (fun i =>
              "\t(".toList ++ decimalNat i ++ ") ".toList ++ es.getD i []
                ++ " = ".toList ++ values.getD i [] ++ "\n".toList)).flatten)) := by
  have hsplit : splitExpressions (", ".toList.intercalate es) = es := by
    cases es with
    | nil => exact absurd rfl hne
    | cons e es =>
      have he : WellFormedExpr e := hes e (by simp)
      rw [splitExpressions_eq_splitAcc, intercalate_cons_eq,
        splitAcc_joined es e [] [] he (fun x hx => hes x (by simp [hx]))
          (by simpa using (trim_wellFormed e he).1)]
      simp
  refine ⟨hsplit, ?_⟩
  intro cerr values hlen
  rw [printValues_eq cerr _ values (by rw [hsplit]; omega), hsplit, hlen]

/-- An instance of C17: the three expressions `a`, `f(b, c)` and `(x)`. -/
theorem splitExpressions_joined_witness :
    (∀ e ∈ ["a".toList, "f(b, c)".toList, "(x)".toList], WellFormedExpr e)
    ∧ splitExpressions "a, f(b, c), (x)".toList
      = ["a".toList, "f(b, c)".toList, "(x)".toList] := by
  have hwf : ∀ e ∈ ["a".toList, "f(b, c)".toList, "(x)".toList], WellFormedExpr e := by
    intro e he
    simp only [List.mem_cons, List.mem_singleton, List.not_mem_nil, or_false] at he
    rcases he with rfl | rfl | rfl
    all_goals
      refine ⟨by decide, ?_, ?_, ?_, by decide, ?_⟩
      · intro c hc; cases hc; decide
      · intro c hc; cases hc; decide
      · intro p hp; rw [← List.mem_inits] at hp; revert p; decide
      · intro p hp; rw [← List.mem_inits] at hp; revert p; decide
  refine ⟨hwf, ?_⟩
  have h := (splitExpressions_joined ["a".toList, "f(b, c)".toList, "(x)".toList]
    (by decide) hwf).1
  have e : ", ".toList.intercalate ["a".toList, "f(b, c)".toList, "(x)".toList]
      = "a, f(b, c), (x)".toList := by decide
  rw [e] at h
  exact h

/-! ### Unmatched closing parenthesis; character codes above 127 -/

/-- A non-empty trimmed text without a comma or a parenthesis is a well-formed
expression. -/
theorem wellFormed_of_plain (a : Text) (ha : a ≠ []) (hta : trim a = a)
    (hc : ',' ∉ a) (ho : '(' ∉ a) (hcl : ')' ∉ a) : WellFormedExpr a := by
  refine ⟨ha, ?_, ?_, ?_, ?_, ?_⟩
  · intro c h
    exact trim_head_not_space a c (by rw [hta]; exact h)
  · intro c h
    exact trim_last_not_space a c (by rw [hta]; exact h)
  · intro p hp
    have : ')' ∉ p := fun h => hcl (hp.subset h)
    simp [List.count_eq_zero_of_not_mem this]
  · rw [List.count_eq_zero_of_not_mem ho, List.count_eq_zero_of_not_mem hcl]
  · intro p hp hl
    exact absurd (hp.subset (List.mem_of_getLast?_eq_some hl)) hc

/-- C21: the depth counter of `splitExpressions` never goes below 0: the loop meets a `)`
at depth 0 and goes on at depth 0, so an unmatched closing parenthesis does not stop later
commas at depth 0 from being separators; for all non-empty trimmed texts `a` and `b`
without a comma or a parenthesis, splitting `a ++ "), " ++ b` gives `[a ++ ")", b]`. -/
theorem splitExpressions_unmatched_close (a b : Text)
    (ha : a ≠ []) (hta : trim a = a) (hca : ',' ∉ a) (hoa : '(' ∉ a) (hcla : ')' ∉ a)
    (hb : b ≠ []) (htb : trim b = b) (hcb : ',' ∉ b) (hob : '(' ∉ b) (hclb : ')' ∉ b) :
    (∀ (input rest : Text) (i start : Nat) (result : List Text),
      splitLoop input (')' :: rest) i start 0 result
        = splitLoop input rest (i + 1) start 0 result)
    ∧ splitExpressions (a ++ "), ".toList ++ b) = [a ++ ")".toList, b] := by
  constructor
  · intro input rest i start result
    simp [splitLoop]
  · have hwa := wellFormed_of_plain a ha hta hca hoa hcla
    have hwb := wellFormed_of_plain b hb htb hcb hob hclb
    have e : a ++ "), ".toList ++ b = a ++ (')' :: ',' :: ' ' :: (b ++ [])) := by simp
    have htrim : trim (a ++ [')']) = a ++ [')'] := by
      cases a with
      | nil => exact absurd rfl ha
      | cons x m =>
        have hx : isspace x = false := hwa.2.1 x (by simp)
        exact trim_eq_self x ')' m hx (by decide)
    rw [splitExpressions_eq_splitAcc, e, splitAcc_wellFormed a _ [] [] hwa, splitAcc_cons]
    simp only [show ¬ (')' = '(') by decide, show ¬ ((0 : Nat) > 0) by decide, if_false,
      and_false, show ¬ (')' = ',') by decide, false_and, List.nil_append]
    rw [splitAcc_cons]
    simp only [show ¬ (',' = '(') by decide, show ¬ (',' = ')') by decide, if_false,
      false_and, true_and, if_true, List.nil_append]
    rw [splitAcc_cons]
    simp only [show ¬ (' ' = '(') by decide, show ¬ (' ' = ')') by decide,
      show ¬ (' ' = ',') by decide, if_false, false_and, List.nil_append]
    rw [splitAcc_wellFormed b [] [' '] _ hwb, splitAcc_nil, htrim]
    have h2 : [' '] ++ b = ' ' :: b := rfl
    rw [h2, if_neg (by simp), (trim_wellFormed b hwb).2]
    simp

/-- An instance of C21: `a = "x"` and `b = "y z"`. -/
theorem splitExpressions_unmatched_close_witness :
    trim "x".toList = "x".toList ∧ trim "y z".toList = "y z".toList
    ∧ splitExpressions "x), y z".toList = ["x)".toList, "y z".toList] := by
  refine ⟨by decide, by decide, ?_⟩
  have h := (splitExpressions_unmatched_close "x".toList "y z".toList
    (by decide) (by decide) (by decide) (by decide) (by decide)
    (by decide) (by decide) (by decide) (by decide) (by decide)).2
  have e : "x".toList ++ "), ".toList ++ "y z".toList = "x), y z".toList := by decide
  have e2 : "x".toList ++ ")".toList = "x)".toList := by decide
  rw [e, e2] at h
  exact h

theorem writeChar_high (out : Text) (u : Nat) (i : Int) (isSigned : Bool) (hu : 128 ≤ u) :
    writeChar out u i isSigned = out ++ numericSuffix u i isSigned := by
  have hsz : specialChars.size = 32 := rfl
  have h1 : ¬ u < specialChars.size := by rw [hsz]; omega
  have h2 : ¬ u = del := by unfold del; omega
  have h3 : ¬ u < del := by unfold del; omega
  cases isSigned <;> simp [writeChar, numericSuffix, h1, h2, h3]

/-- C22: for a character-like value whose unsigned code is in `128..255`, that is every
unsigned char above 127 and every negative signed char, no backticked glyph is written:
the stringification is exactly the numeric suffix, which begins with a space,
`" numeric: <N> (unsigned)"` or `" numeric: <N> (signed)"`. -/
theorem stringify_char_no_glyph (charIsSigned : Bool) (out : Text) :
    (∀ u : Nat, 128 ≤ u → u ≤ 255 →
      stringifyUnsignedChar out u
        = out ++ " numeric: ".toList ++ decimalNat u ++ " (unsigned)".toList)
    ∧ (∀ i : Int, -128 ≤ i → i < 0 →
      stringifySignedChar out i
        = out ++ " numeric: ".toList ++ decimal i ++ " (signed)".toList)
    ∧ (∀ obj : Int, charRange charIsSigned obj → 128 ≤ toUnsignedChar obj →
      stringifyChar charIsSigned out obj
        = out ++ (if charIsSigned then
            " numeric: ".toList ++ decimal obj ++ " (signed)".toList
          else
            " numeric: ".toList ++ decimalNat (toUnsignedChar obj)
              ++ " (unsigned)".toList))
    ∧ (∀ i : Int, -128 ≤ i → i < 0 → 128 ≤ toUnsignedChar i ∧ toUnsignedChar i ≤ 255) := by
  refine ⟨?_, ?_, ?_, ?_⟩
  · intro u hu _
    rw [stringifyUnsignedChar, writeChar_high out u _ false hu]
    simp [numericSuffix]
  · intro i h1 h2
    have hu : 128 ≤ toUnsignedChar i := by unfold toUnsignedChar; omega
    rw [stringifySignedChar, writeChar_high out _ i true hu]
    simp [numericSuffix]
  · intro obj _ hu
    rw [stringifyChar, writeChar_high out _ obj charIsSigned hu]
    cases charIsSigned <;> simp [numericSuffix]
  · intro i h1 h2
    unfold toUnsignedChar
    omega

/-- An instance of C22: the unsigned char 200 and the signed char -3 (code 253). -/
theorem stringify_char_no_glyph_witness :
    stringifyUnsignedChar [] 200 = " numeric: 200 (unsigned)".toList
    ∧ stringifySignedChar [] (-3) = " numeric: -3 (signed)".toList
    ∧ toUnsignedChar (-3) = 253 :=
  ⟨by simpa [decimalNat] using
      (stringify_char_no_glyph true []).1 200 (by decide) (by decide),
   by simpa [decimal, decimalNat] using
      (stringify_char_no_glyph true []).2.1 (-3) (by decide) (by decide),
   by decide⟩

end Errantibus
